import Mathlib

/-!
Shallow embedding of the GanttRing visual's layout computation
(`src/Clients/Visuals/visuals/ganttRing.ts`).

Conventions used throughout:

* JavaScript numbers (timestamps in milliseconds, percentages, degrees) are
  modelled as exact rationals `ℚ`.
* The source stores angles in radians, always of the form
  `degrees * Math.PI / 180` with `degrees` a product of rationals.  We store
  the exact rational coefficient of `π`: a model value `r : ℚ` stands for the
  source angle `r * π` radians (so `2` stands for `2π`, a full sweep).  Since
  `π > 0`, every comparison between two angles in the source holds exactly
  when the same comparison holds between their coefficients.
* `Array.prototype.reduce` applied to an empty array without an initial value
  throws a `TypeError`; functions that can hit that throw return `Option`,
  with `none` standing for the thrown exception.
* In JavaScript, dividing a negative value by `0` yields `-Infinity`; in this
  rational model `x / 0 = 0`.  Inside `buildGantTasks` the difference is
  reachable only for a task's end angle when the overall duration is zero and
  the task's end precedes the overall start; every theorem below that touches
  that case is stated so that its truth value is the same under either
  convention (both values differ from the claimed `2π`).
* Host-bound task fields (`color`, `selector`, `tooltip`) are omitted: they
  are produced by host callbacks (`IColorScale`, `getSelectionId`) and string
  formatting, and no claim depends on their values.
-/

/-- Task record built by `buildGantTasks` (interface `IGanttTask`).
`startAngle` and `endAngle` hold the rational coefficient of `π` (see module
docstring); `layer` mirrors the source's number field, initialised to `-1`
before assignment. -/
structure IGanttTask where
  name : String
  startAngle : ℚ
  endAngle : ℚ
  layer : ℤ
  progress : ℤ
deriving DecidableEq, Repr

/-- Chart record (interface `IGantt`). -/
structure IGantt where
  tasks : List IGanttTask
  layers : ℕ
  compress : Bool
  progress : ℤ
  progressAngle : ℚ
deriving DecidableEq, Repr

/-- Source `calcPercent`: what percent `value` is of `total`, returning
`overflowValue` (default 100) as soon as `value >= total`. -/
def calcPercent (value total : ℚ) (overflowValue : ℚ := 100) : ℚ :=
  if value ≥ total then overflowValue else value / (total / 100)

/-- Source `calcTaskRadians`, as the coefficient of `π`: the source computes
`percent * 3.6` degrees and returns `degrees * Math.PI / 180`; we return
`percent * 3.6 / 180`, the exact radian result divided by `π`. -/
def calcTaskRadians (value duration : ℚ) (defaultToZero : Bool := false) : ℚ :=
  calcPercent value duration (if defaultToZero then 0 else 100) * 3.6 / 180

/-- JavaScript `Math.round` (round half towards positive infinity). -/
def jsRound (x : ℚ) : ℤ := ⌊x + 1 / 2⌋

/-- One iteration of the `names.map` body of `buildGantTasks`, before layer
assignment: angles from the task's offsets within the overall span, progress
from `Math.max(now, taskStart) - taskStart` against the task's own duration. -/
def mkTask (name : String) (s e start duration now : ℚ) : IGanttTask :=
  { name := name
    startAngle := calcTaskRadians (s - start) duration true
    endAngle := calcTaskRadians (e - start) duration
    layer := -1
    progress := jsRound (calcPercent (max now s - s) (e - s)) }

/-- Source room test `layers[l].every(t => t.startAngle >= task.endAngle ||
t.endAngle <= task.startAngle)`. -/
def hasRoom (task : IGanttTask) (lay : List IGanttTask) : Bool :=
  lay.all fun t =>
    decide (t.startAngle ≥ task.endAngle) || decide (t.endAngle ≤ task.startAngle)

/-- Source scan `for (var l = 0; l < layers.length; l++) ... break`: the
index of the first layer with room, if any. -/
def findLayer (task : IGanttTask) : List (List IGanttTask) → Option ℕ
  | [] => none
  | lay :: rest =>
    if hasRoom task lay then some 0 else (findLayer task rest).map (· + 1)

/-- Source `layers[l].push(task)`. -/
def pushLayer : List (List IGanttTask) → ℕ → IGanttTask → List (List IGanttTask)
  | [], _, _ => []
  | lay :: rest, 0, t => (lay ++ [t]) :: rest
  | lay :: rest, l + 1, t => lay :: pushLayer rest l t

/-- Loop state of `buildGantTasks`: the tasks emitted so far (in input order),
the mutable `layers` array (which starts as `[[]]`), and the map index `i`. -/
structure GState where
  tasks : List IGanttTask
  layers : List (List IGanttTask)
  idx : ℕ
deriving DecidableEq, Repr

/-- Body of the `names.map` loop of `buildGantTasks` for one
`(name, start, end)` triple: build the task, then assign its layer (first fit
over the shared `layers` array when `compress` is set, else the input index). -/
def ganttStep (compress : Bool) (start duration now : ℚ) (st : GState)
    (item : String × ℚ × ℚ) : GState :=
  let task := mkTask item.1 item.2.1 item.2.2 start duration now
  if compress then
    match findLayer task st.layers with
    | some l =>
      let t := { task with layer := (l : ℤ) }
      ⟨st.tasks ++ [t], pushLayer st.layers l t, st.idx + 1⟩
    | none =>
      let t := { task with layer := (st.layers.length : ℤ) }
      ⟨st.tasks ++ [t], st.layers ++ [[t]], st.idx + 1⟩
  else
    ⟨st.tasks ++ [{ task with layer := (st.idx : ℤ) }], st.layers, st.idx + 1⟩

/-- JavaScript `starts.reduce((prev, curr) => prev < curr ? prev : curr)`;
`none` models the `TypeError` thrown on an empty array. -/
def jsReduceMin : List ℚ → Option ℚ
  | [] => none
  | x :: xs => some (xs.foldl (fun p c => if p < c then p else c) x)

/-- JavaScript `ends.reduce((prev, curr) => prev > curr ? prev : curr)`;
`none` models the `TypeError` thrown on an empty array. -/
def jsReduceMax : List ℚ → Option ℚ
  | [] => none
  | x :: xs => some (xs.foldl (fun p c => if p > c then p else c) x)

/-- Triples `(name, starts[i], ends[i])` fed to the map body, starting the
index at `i`.  An out-of-range access (possible only when a series is shorter
than the category list) is modelled as `0`; in JavaScript it produces `NaN`
angles, and no claim below depends on the angle values in that case. -/
def mkItems : List String → List ℚ → List ℚ → ℕ → List (String × ℚ × ℚ)
  | [], _, _, _ => []
  | n :: ns, starts, ends, i =>
    (n, starts.getD i 0, ends.getD i 0) :: mkItems ns starts ends (i + 1)

/-- Source `buildGantTasks`, with `Date.now()` passed explicitly as `now`. -/
def buildGantTasks (compress : Bool) (names : List String)
    (starts ends : List ℚ) (now : ℚ) : Option IGantt :=
  match jsReduceMin starts, jsReduceMax ends with
  | some start, some stop =>
    let duration := |stop - start|
    let st := (mkItems names starts ends 0).foldl
      (ganttStep compress start duration now) ⟨[], [[]], 0⟩
    let progressVal := max now start - start
    some { tasks := st.tasks
           layers := if compress then st.layers.length else st.tasks.length
           compress := compress
           progress := jsRound (calcPercent progressVal duration)
           progressAngle := calcTaskRadians progressVal duration }
  | _, _ => none

/-- One category column: only the `values` (task names) are needed; the host
identity objects are omitted. -/
structure DataViewCategoryColumn where
  values : List String
deriving DecidableEq, Repr

/-- One measure column of the categorical `values` collection. -/
structure DataViewValueColumn where
  values : List ℚ
deriving DecidableEq, Repr

/-- Categorical payload of a DataView. -/
structure DataViewCategorical where
  categories : List DataViewCategoryColumn
  values : List DataViewValueColumn
deriving DecidableEq, Repr

/-- The slice of a DataView the converter reads: the categorical payload and
the `layout.compress` metadata object (`none` when the metadata or the
setting is absent). -/
structure DataView where
  categorical : Option DataViewCategorical
  metadataCompress : Option Bool
deriving DecidableEq, Repr

/-- Source `compressLayout`: the metadata setting, defaulting to `false`. -/
def compressLayout (dv : DataView) : Bool := dv.metadataCompress.getD false

/-- Source `converter`. -/
def converter (dv : DataView) (now : ℚ) : Option IGantt :=
  let g0 : IGantt :=
    { tasks := [], layers := 0, compress := compressLayout dv
      progress := 0, progressAngle := 0 }
  match dv.categorical with
  | none => some g0
  | some cat =>
    match cat.categories with
    | [] => some g0
    | category :: _ =>
      if 2 ≤ cat.values.length then
        buildGantTasks (compressLayout dv) category.values
          ((cat.values.getD 0 ⟨[]⟩).values) ((cat.values.getD 1 ⟨[]⟩).values) now
      else some g0

/-- Source `getTotalProgressLabel`. -/
def getTotalProgressLabel (tasksCount : ℕ) (progress : ℤ) : String :=
  if tasksCount = 0 then "Project Has No Tasks"
  else if progress ≤ 0 then "Not Started"
  else if progress ≥ 100 then "Completed"
  else toString progress ++ "%"

/-- Angle-interval projection of a task. -/
def projSE (t : IGanttTask) : ℚ × ℚ := (t.startAngle, t.endAngle)

/-- Specification-side room test, following the spec's words: every existing
member `t` of the layer must satisfy `t.start >= task.end OR t.end <=
task.start`. -/
def specHasRoom (iv : ℚ × ℚ) (lay : List (ℚ × ℚ)) : Bool :=
  lay.all fun t => decide (t.1 ≥ iv.2) || decide (t.2 ≤ iv.1)

/-- Specification-side scan of the existing layers in creation order. -/
def specFindLayer (iv : ℚ × ℚ) : List (List (ℚ × ℚ)) → Option ℕ
  | [] => none
  | lay :: rest =>
    if specHasRoom iv lay then some 0 else (specFindLayer iv rest).map (· + 1)

/-- Specification-side insertion into layer `l`. -/
def specPush : List (List (ℚ × ℚ)) → ℕ → ℚ × ℚ → List (List (ℚ × ℚ))
  | [], _, _ => []
  | lay :: rest, 0, iv => (lay ++ [iv]) :: rest
  | lay :: rest, l + 1, iv => lay :: specPush rest l iv

/-- First-fit layer assignment exactly as the spec's contract describes it:
starting with no layers, each interval (taken in input order) goes to the
first layer all of whose members pass `specHasRoom`; if no existing layer
qualifies, a new layer is appended and the interval receives its index. -/
def specFirstFitGo : List (List (ℚ × ℚ)) → List (ℚ × ℚ) → List ℕ
  | _, [] => []
  | layers, iv :: rest =>
    match specFindLayer iv layers with
    | some l => l :: specFirstFitGo (specPush layers l iv) rest
    | none => layers.length :: specFirstFitGo (layers ++ [[iv]]) rest

/-- Layer-index sequence the spec's first-fit contract assigns to a sequence
of angle intervals. -/
def specFirstFitLayers (ivs : List (ℚ × ℚ)) : List ℕ := specFirstFitGo [] ivs

/-! ### Arithmetic facts about `calcPercent` and `calcTaskRadians` -/

lemma calcPercent_mono {d v₁ v₂ : ℚ} (hd : 0 ≤ d) (h : v₁ ≤ v₂) :
    calcPercent v₁ d ≤ calcPercent v₂ d := by
  unfold calcPercent
  split_ifs with h1 h2 h2
  · exact le_refl _
  · exact absurd (le_trans h1 h) h2
  · rcases eq_or_lt_of_le hd with rfl | hpos
    · simp
    · have hc : (0 : ℚ) < d / 100 := by positivity
      rw [div_le_iff₀ hc]
      push_neg at h1
      nlinarith
  · rcases eq_or_lt_of_le hd with rfl | hpos
    · simp
    · have hc : (0 : ℚ) < d / 100 := by positivity
      exact (div_le_div_iff_of_pos_right hc).mpr h

lemma calcTaskRadians_mono {d v₁ v₂ : ℚ} (hd : 0 ≤ d) (h : v₁ ≤ v₂) :
    calcTaskRadians v₁ d ≤ calcTaskRadians v₂ d := by
  have := calcPercent_mono hd h
  unfold calcTaskRadians
  simp only [Bool.false_eq_true, if_false]
  linarith

/-- C3: for non-negative duration and elapsed values, `calcPercent` (with its
default overflow value 100) is clamped to `[0, 100]`, is exactly `100` at
`calcPercent(D, D)`, and returns the overflow value outright whenever the
duration is non-positive, so no division by zero occurs. -/
theorem calcPercent_clamped (elapsed duration : ℚ)
    (hD : 0 ≤ duration) (hE : 0 ≤ elapsed) :
    0 ≤ calcPercent elapsed duration ∧ calcPercent elapsed duration ≤ 100
      ∧ calcPercent duration duration = 100
      ∧ (duration ≤ 0 → calcPercent elapsed duration = 100) := by
  unfold calcPercent
  refine ⟨?_, ?_, by simp, fun hneg => by rw [if_pos (le_trans hneg hE)]⟩
  · split_ifs with h1
    · norm_num
    · push_neg at h1
      have hpos : (0 : ℚ) < duration := lt_of_le_of_lt hE h1
      positivity
  · split_ifs with h1
    · norm_num
    · push_neg at h1
      have hpos : (0 : ℚ) < duration := lt_of_le_of_lt hE h1
      have hc : (0 : ℚ) < duration / 100 := by positivity
      rw [div_le_iff₀ hc]
      nlinarith

/-- Witness for `calcPercent_clamped` at `elapsed = 1`, `duration = 0` (where
the non-positive-duration hypothesis of the last conjunct is also satisfied). -/
theorem calcPercent_clamped_witness :
    0 ≤ calcPercent 1 0 ∧ calcPercent 1 0 ≤ 100 ∧ calcPercent 0 0 = 100
      ∧ ((0 : ℚ) ≤ 0 → calcPercent 1 0 = 100) :=
  calcPercent_clamped 1 0 (by norm_num) (by norm_num)

/-- C6: for a fixed non-negative span (the source always passes
`Math.abs(end - start)`), the angle mapping is monotonic in the time offset —
both for the stored coefficient of `π` and for the real radian value. -/
theorem calcTaskRadians_monotone (duration v₁ v₂ : ℚ)
    (hd : 0 ≤ duration) (h : v₁ ≤ v₂) :
    calcTaskRadians v₁ duration ≤ calcTaskRadians v₂ duration
      ∧ ((calcTaskRadians v₁ duration : ℚ) : ℝ) * Real.pi
          ≤ ((calcTaskRadians v₂ duration : ℚ) : ℝ) * Real.pi := by
  have hq := calcTaskRadians_mono hd h
  refine ⟨hq, ?_⟩
  have : ((calcTaskRadians v₁ duration : ℚ) : ℝ) ≤ ((calcTaskRadians v₂ duration : ℚ) : ℝ) :=
    Rat.cast_le.mpr hq
  exact mul_le_mul_of_nonneg_right this Real.pi_pos.le

/-- Witness for `calcTaskRadians_monotone` at offsets `3 ≤ 7` within span 10. -/
theorem calcTaskRadians_monotone_witness :
    calcTaskRadians 3 10 ≤ calcTaskRadians 7 10
      ∧ ((calcTaskRadians 3 10 : ℚ) : ℝ) * Real.pi
          ≤ ((calcTaskRadians 7 10 : ℚ) : ℝ) * Real.pi :=
  calcTaskRadians_monotone 10 3 7 (by norm_num) (by norm_num)

/-- C5 (counterexample): with starts `[5, 5]` and ends `[5, 3]` the overall
span is `[5, 5]`, so the overall duration is zero; yet the second task (whose
end `3` precedes the overall start `5`) gets end angle `0`, not `2π` (its
coefficient of `π` is `0`, not `2`; in JavaScript the same input divides `-2`
by zero and produces `-Infinity`, likewise not `2π`). -/
theorem zeroDuration_endAngle_counterexample :
    jsReduceMin [5, 5] = some 5 ∧ jsReduceMax [5, 3] = some 5
      ∧ (buildGantTasks false ["a", "b"] [5, 5] [5, 3] 0).map (fun g => g.tasks.map projSE)
          = some [(0, 2), (0, 0)]
      ∧ (0 : ℚ) ≠ 2 := by
  refine ⟨rfl, rfl, ?_, by norm_num⟩
  norm_num [buildGantTasks, jsReduceMin, jsReduceMax, mkItems, ganttStep, mkTask,
    calcTaskRadians, calcPercent, jsRound, findLayer, hasRoom, pushLayer, projSE]

/-- C5 (amended): the angle mapping returns
`(value >= duration ? 100 : value / (duration / 100)) * 3.6 * π / 180`;
the end-angle mapping defaults to 100% on overflow while the start-angle
mapping (`defaultToZero = true`) defaults to 0%, so whenever the offset is at
least the duration — in particular for a zero overall duration and a task
whose end does not precede the overall start — the start angle is `0` and the
end angle is `2π`.  (For a task end strictly before the overall start the
end-angle division by the zero duration does not produce `2π`, see
`zeroDuration_endAngle_counterexample`.) -/
theorem calcTaskRadians_formula (value duration : ℚ) :
    ((calcTaskRadians value duration : ℚ) : ℝ) * Real.pi
        = ((if value ≥ duration then (100 : ℚ) else value / (duration / 100) : ℚ) : ℝ)
            * 3.6 * Real.pi / 180
      ∧ (duration ≤ value →
          calcTaskRadians value duration true = 0
            ∧ calcTaskRadians value duration = 2
            ∧ ((calcTaskRadians value duration : ℚ) : ℝ) * Real.pi = 2 * Real.pi) := by
  constructor
  · unfold calcTaskRadians calcPercent
    simp only [Bool.false_eq_true, if_false]
    rcases le_or_lt duration value with hle | hlt
    · rw [if_pos hle]
      push_cast
      ring
    · rw [if_neg (not_le.mpr hlt)]
      push_cast
      ring
  · intro hle
    unfold calcTaskRadians calcPercent
    simp only [if_pos hle]
    norm_num

/-- Witness for `calcTaskRadians_formula` at `value = 0`, `duration = 0`. -/
theorem calcTaskRadians_formula_witness :
    ((calcTaskRadians 0 0 : ℚ) : ℝ) * Real.pi
        = ((if (0 : ℚ) ≥ 0 then (100 : ℚ) else 0 / ((0 : ℚ) / 100) : ℚ) : ℝ)
            * 3.6 * Real.pi / 180
      ∧ (calcTaskRadians 0 0 true = 0 ∧ calcTaskRadians 0 0 = 2
          ∧ ((calcTaskRadians 0 0 : ℚ) : ℝ) * Real.pi = 2 * Real.pi) :=
  ⟨(calcTaskRadians_formula 0 0).1, (calcTaskRadians_formula 0 0).2 (le_refl 0)⟩

/-! ### Facts about the empty-array-throwing reduces -/

lemma foldlMin_le (xs : List ℚ) :
    ∀ acc : ℚ,
      xs.foldl (fun p c => if p < c then p else c) acc ≤ acc
        ∧ ∀ y ∈ xs, xs.foldl (fun p c => if p < c then p else c) acc ≤ y := by
  induction xs with
  | nil => intro acc; exact ⟨le_refl _, by simp⟩
  | cons x xs ih =>
    intro acc
    constructor
    · refine le_trans (ih (if acc < x then acc else x)).1 ?_
      split_ifs with h
      · exact le_refl _
      · exact le_of_not_lt h
    · intro y hy
      rcases List.mem_cons.mp hy with rfl | hy2
      · refine le_trans (ih (if acc < y then acc else y)).1 ?_
        split_ifs with h
        · exact le_of_lt h
        · exact le_refl _
      · exact (ih _).2 y hy2

lemma foldlMax_ge (xs : List ℚ) :
    ∀ acc : ℚ,
      acc ≤ xs.foldl (fun p c => if p > c then p else c) acc
        ∧ ∀ y ∈ xs, y ≤ xs.foldl (fun p c => if p > c then p else c) acc := by
  induction xs with
  | nil => intro acc; exact ⟨le_refl _, by simp⟩
  | cons x xs ih =>
    intro acc
    constructor
    · refine le_trans ?_ (ih (if acc > x then acc else x)).1
      split_ifs with h
      · exact le_refl _
      · exact le_of_not_lt h
    · intro y hy
      rcases List.mem_cons.mp hy with rfl | hy2
      · refine le_trans ?_ (ih (if acc > y then acc else y)).1
        split_ifs with h
        · exact le_of_lt h
        · exact le_refl _
      · exact (ih _).2 y hy2

lemma jsReduceMin_le {xs : List ℚ} {m : ℚ} (h : jsReduceMin xs = some m) :
    ∀ y ∈ xs, m ≤ y := by
  cases xs with
  | nil => simp [jsReduceMin] at h
  | cons x rest =>
    simp only [jsReduceMin, Option.some.injEq] at h
    intro y hy
    rcases List.mem_cons.mp hy with rfl | hy2
    · exact h ▸ (foldlMin_le rest y).1
    · exact h ▸ (foldlMin_le rest x).2 y hy2

lemma jsReduceMax_ge {xs : List ℚ} {m : ℚ} (h : jsReduceMax xs = some m) :
    ∀ y ∈ xs, y ≤ m := by
  cases xs with
  | nil => simp [jsReduceMax] at h
  | cons x rest =>
    simp only [jsReduceMax, Option.some.injEq] at h
    intro y hy
    rcases List.mem_cons.mp hy with rfl | hy2
    · exact h ▸ (foldlMax_ge rest y).1
    · exact h ▸ (foldlMax_ge rest x).2 y hy2

lemma jsReduceMin_isSome {xs : List ℚ} (h : xs ≠ []) : ∃ m, jsReduceMin xs = some m := by
  cases xs with
  | nil => exact absurd rfl h
  | cons x rest => exact ⟨_, rfl⟩

lemma jsReduceMax_isSome {xs : List ℚ} (h : xs ≠ []) : ∃ m, jsReduceMax xs = some m := by
  cases xs with
  | nil => exact absurd rfl h
  | cons x rest => exact ⟨_, rfl⟩

/-! ### Facts about `mkItems` and the task-building fold -/

lemma mkItems_length (s e : List ℚ) :
    ∀ (ns : List String) (i : ℕ), (mkItems ns s e i).length = ns.length := by
  intro ns
  induction ns with
  | nil => intro i; rfl
  | cons n ns ih => intro i; simp [mkItems, ih]

lemma mkItems_get (s e : List ℚ) :
    ∀ (ns : List String) (i k : ℕ) (hk : k < (mkItems ns s e i).length),
      (mkItems ns s e i).get ⟨k, hk⟩
        = (ns.getD k "", s.getD (i + k) 0, e.getD (i + k) 0) := by
  intro ns
  induction ns with
  | nil => intro i k hk; simp [mkItems] at hk
  | cons n ns ih =>
    intro i k hk
    cases k with
    | zero => simp [mkItems]
    | succ k =>
      have hk2 : k < (mkItems ns s e (i + 1)).length := by
        simpa [mkItems] using hk
      have harith : i + 1 + k = i + (k + 1) := by omega
      simpa [mkItems, harith] using ih (i + 1) k hk2

/-- Angle pair `buildGantTasks` computes for one `(name, start, end)` item. -/
def itemAngles (S D : ℚ) (it : String × ℚ × ℚ) : ℚ × ℚ :=
  (calcTaskRadians (it.2.1 - S) D true, calcTaskRadians (it.2.2 - S) D)

lemma ganttStep_tasks (c : Bool) (S D now : ℚ) (st : GState) (it : String × ℚ × ℚ) :
    ∃ z : ℤ, (ganttStep c S D now st it).tasks
      = st.tasks ++ [{ mkTask it.1 it.2.1 it.2.2 S D now with layer := z }] := by
  cases c with
  | false => exact ⟨(st.idx : ℤ), rfl⟩
  | true =>
    cases hfl : findLayer (mkTask it.1 it.2.1 it.2.2 S D now) st.layers with
    | none => exact ⟨(st.layers.length : ℤ), by simp [ganttStep, hfl]⟩
    | some l => exact ⟨(l : ℤ), by simp [ganttStep, hfl]⟩

lemma foldl_tasks_proj (c : Bool) (S D now : ℚ) :
    ∀ (items : List (String × ℚ × ℚ)) (st : GState),
      ((items.foldl (ganttStep c S D now) st).tasks).map projSE
        = st.tasks.map projSE ++ items.map (itemAngles S D) := by
  intro items
  induction items with
  | nil => intro st; simp
  | cons it rest ih =>
    intro st
    rw [List.foldl_cons, ih]
    obtain ⟨z, hz⟩ := ganttStep_tasks c S D now st it
    rw [hz]
    simp [projSE, itemAngles, mkTask]

lemma calcTaskRadians_true_eq (v d : ℚ) :
    calcTaskRadians v d true = (if v ≥ d then 0 else v / (d / 100)) * 3.6 / 180 := by
  simp [calcTaskRadians, calcPercent]

lemma calcTaskRadians_false_eq (v d : ℚ) :
    calcTaskRadians v d = (if v ≥ d then 100 else v / (d / 100)) * 3.6 / 180 := by
  simp [calcTaskRadians, calcPercent]

lemma startAngle_le_endAngle_core {a b D : ℚ} (ha : 0 ≤ a) (hab : a ≤ b) (hbD : b ≤ D) :
    calcTaskRadians a D true ≤ calcTaskRadians b D := by
  rw [calcTaskRadians_true_eq, calcTaskRadians_false_eq]
  split_ifs with h1 h2 h2
  · norm_num
  · push_neg at h2
    exact absurd (lt_of_le_of_lt hab h2) (not_lt.mpr h1)
  · push_neg at h1
    have hDpos : (0 : ℚ) < D := lt_of_le_of_lt ha h1
    have hc : (0 : ℚ) < D / 100 := by positivity
    have : a / (D / 100) ≤ 100 := by
      rw [div_le_iff₀ hc]
      nlinarith
    linarith
  · push_neg at h1 h2
    have hDpos : (0 : ℚ) < D := lt_of_le_of_lt ha h1
    have hc : (0 : ℚ) < D / 100 := by positivity
    have := (div_le_div_iff_of_pos_right hc).mpr hab
    linarith

/-- Successful result of `buildGantTasks` once the two reduces returned
`S` (overall start) and `E` (overall end). -/
def buildResult (c : Bool) (names : List String) (starts ends : List ℚ)
    (now S E : ℚ) : IGantt :=
  { tasks := ((mkItems names starts ends 0).foldl
      (ganttStep c S (|E - S|) now) ⟨[], [[]], 0⟩).tasks
    layers := if c then
        ((mkItems names starts ends 0).foldl
          (ganttStep c S (|E - S|) now) ⟨[], [[]], 0⟩).layers.length
      else
        ((mkItems names starts ends 0).foldl
          (ganttStep c S (|E - S|) now) ⟨[], [[]], 0⟩).tasks.length
    compress := c
    progress := jsRound (calcPercent (max now S - S) (|E - S|))
    progressAngle := calcTaskRadians (max now S - S) (|E - S|) }

lemma buildGantTasks_inv {c : Bool} {names : List String} {starts ends : List ℚ}
    {now : ℚ} {g : IGantt} (hg : buildGantTasks c names starts ends now = some g) :
    ∃ S E, jsReduceMin starts = some S ∧ jsReduceMax ends = some E
      ∧ g = buildResult c names starts ends now S E := by
  unfold buildGantTasks at hg
  cases hS : jsReduceMin starts with
  | none => rw [hS] at hg; simp at hg
  | some S =>
    cases hE : jsReduceMax ends with
    | none => rw [hS, hE] at hg; simp at hg
    | some E =>
      rw [hS, hE] at hg
      simp only [Option.some.injEq] at hg
      exact ⟨S, E, rfl, rfl, by rw [← hg]; rfl⟩

lemma buildGantTasks_start_le_end {c : Bool} {names : List String}
    {starts ends : List ℚ} {now : ℚ} {g : IGantt}
    (hg : buildGantTasks c names starts ends now = some g)
    (i : ℕ) (hi : i < g.tasks.length) (hs : i < starts.length) (he : i < ends.length)
    (hse : starts.get ⟨i, hs⟩ ≤ ends.get ⟨i, he⟩) :
    (g.tasks.get ⟨i, hi⟩).startAngle ≤ (g.tasks.get ⟨i, hi⟩).endAngle := by
  obtain ⟨S, E, hS, hE, rfl⟩ := buildGantTasks_inv hg
  have htasks : (buildResult c names starts ends now S E).tasks
      = ((mkItems names starts ends 0).foldl
          (ganttStep c S (|E - S|) now) ⟨[], [[]], 0⟩).tasks := rfl
  have hproj := foldl_tasks_proj c S (|E - S|) now (mkItems names starts ends 0) ⟨[], [[]], 0⟩
  rw [← htasks] at hproj
  simp only [List.map_nil, List.nil_append] at hproj
  have hlen : (buildResult c names starts ends now S E).tasks.length
      = (mkItems names starts ends 0).length := by
    have := congrArg List.length hproj
    simpa using this
  have hi2 : i < (mkItems names starts ends 0).length := hlen ▸ hi
  have hb1 : i < (List.map projSE (buildResult c names starts ends now S E).tasks).length := by
    simpa using hi
  have hq := List.get_of_eq hproj ⟨i, hb1⟩
  rw [List.get_map, List.get_map] at hq
  rw [mkItems_get starts ends names 0 i hi2] at hq
  have hsd : starts.getD (0 + i) 0 = starts.get ⟨i, hs⟩ := by
    simpa using List.getD_eq_get starts 0 hs
  have hed : ends.getD (0 + i) 0 = ends.get ⟨i, he⟩ := by
    simpa using List.getD_eq_get ends 0 he
  rw [hsd, hed] at hq
  have hstart : ((buildResult c names starts ends now S E).tasks.get ⟨i, hi⟩).startAngle
      = calcTaskRadians (starts.get ⟨i, hs⟩ - S) (|E - S|) true := by
    have := congrArg Prod.fst hq
    simpa [projSE, itemAngles] using this
  have hend : ((buildResult c names starts ends now S E).tasks.get ⟨i, hi⟩).endAngle
      = calcTaskRadians (ends.get ⟨i, he⟩ - S) (|E - S|) := by
    have := congrArg Prod.snd hq
    simpa [projSE, itemAngles] using this
  rw [hstart, hend]
  have hSle : S ≤ starts.get ⟨i, hs⟩ := jsReduceMin_le hS _ (List.get_mem starts _ _)
  have hEge : ends.get ⟨i, he⟩ ≤ E := jsReduceMax_ge hE _ (List.get_mem ends _ _)
  have habs : |E - S| = E - S := abs_of_nonneg (by linarith)
  rw [habs]
  exact startAngle_le_endAngle_core (by linarith) (by linarith) (by linarith)

/-- C8 (counterexample): a task whose end timestamp (2) precedes its start
timestamp (8), inside a chart spanning 0–10, gets `startAngle` coefficient
`8/5` (i.e. `1.6π`) and `endAngle` coefficient `2/5` (i.e. `0.4π`), so
`startAngle ≤ endAngle` fails for a converter-produced task. -/
theorem reversedTask_counterexample :
    (converter ⟨some ⟨[⟨["a", "b"]⟩], [⟨[0, 8]⟩, ⟨[10, 2]⟩]⟩, none⟩ 0).map
        (fun g => g.tasks.map projSE)
      = some [(0, 2), (8 / 5, 2 / 5)]
    ∧ ¬ ((8 : ℚ) / 5 ≤ (2 : ℚ) / 5) := by
  constructor
  · norm_num [converter, compressLayout, buildGantTasks, jsReduceMin, jsReduceMax, mkItems,
      ganttStep, mkTask, calcTaskRadians, calcPercent, jsRound, findLayer, hasRoom,
      pushLayer, projSE]
  · norm_num

/-- C8 (amended): every converter-produced task whose start timestamp is at
most its end timestamp satisfies `startAngle ≤ endAngle`.  (For a task whose
end precedes its start the source maps the start to a larger percentage of
the span than the end, and the angles come out reversed, see
`reversedTask_counterexample`.) -/
theorem converter_start_le_end (dv : DataView) (now : ℚ) (g : IGantt)
    (hg : converter dv now = some g) (cat : DataViewCategorical)
    (hcat : dv.categorical = some cat)
    (i : ℕ) (hi : i < g.tasks.length)
    (hs : i < (cat.values.getD 0 ⟨[]⟩).values.length)
    (he : i < (cat.values.getD 1 ⟨[]⟩).values.length)
    (hse : (cat.values.getD 0 ⟨[]⟩).values.get ⟨i, hs⟩
            ≤ (cat.values.getD 1 ⟨[]⟩).values.get ⟨i, he⟩) :
    (g.tasks.get ⟨i, hi⟩).startAngle ≤ (g.tasks.get ⟨i, hi⟩).endAngle := by
  unfold converter at hg
  rw [hcat] at hg
  dsimp only at hg
  cases hcats : cat.categories with
  | nil =>
    rw [hcats] at hg
    dsimp only at hg
    simp only [Option.some.injEq] at hg
    rw [← hg] at hi
    simp at hi
  | cons category rest =>
    rw [hcats] at hg
    dsimp only at hg
    by_cases h2 : 2 ≤ cat.values.length
    · rw [if_pos h2] at hg
      exact buildGantTasks_start_le_end hg i hi hs he hse
    · rw [if_neg h2] at hg
      simp only [Option.some.injEq] at hg
      rw [← hg] at hi
      simp at hi

/-- Witness for `converter_start_le_end`: a single well-ordered task
spanning 0–10 whose start angle 0 is below its end angle `2π`. -/
theorem converter_start_le_end_witness :
    converter ⟨some ⟨[⟨["a"]⟩], [⟨[0]⟩, ⟨[10]⟩]⟩, none⟩ 0
        = some { tasks := [⟨"a", 0, 2, 0, 0⟩], layers := 1, compress := false
                 progress := 0, progressAngle := 0 }
      ∧ (0 : ℚ) ≤ 10
      ∧ (IGanttTask.mk "a" 0 2 0 0).startAngle ≤ (IGanttTask.mk "a" 0 2 0 0).endAngle := by
  have hg : converter ⟨some ⟨[⟨["a"]⟩], [⟨[0]⟩, ⟨[10]⟩]⟩, none⟩ 0
      = some { tasks := [⟨"a", 0, 2, 0, 0⟩], layers := 1, compress := false
               progress := 0, progressAngle := 0 } := by
    norm_num [converter, compressLayout, buildGantTasks, jsReduceMin, jsReduceMax, mkItems,
      ganttStep, mkTask, calcTaskRadians, calcPercent, jsRound, findLayer, hasRoom, pushLayer]
  refine ⟨hg, by norm_num, ?_⟩
  exact converter_start_le_end _ 0 _ hg _ rfl 0 (by norm_num) (by norm_num) (by norm_num)
    (by norm_num [List.get])

/-! ### Layer identity when compression is disabled (C4) -/

lemma ganttStep_false_eq (S D now : ℚ) (st : GState) (it : String × ℚ × ℚ) :
    ganttStep false S D now st it
      = ⟨st.tasks ++ [{ mkTask it.1 it.2.1 it.2.2 S D now with layer := (st.idx : ℤ) }],
         st.layers, st.idx + 1⟩ := rfl

lemma foldl_noCompress_layer (S D now : ℚ) :
    ∀ (items : List (String × ℚ × ℚ)) (st : GState),
      st.idx = st.tasks.length →
      (∀ k (hk : k < st.tasks.length), (st.tasks.get ⟨k, hk⟩).layer = (k : ℤ)) →
      ∀ k (hk : k < (items.foldl (ganttStep false S D now) st).tasks.length),
        ((items.foldl (ganttStep false S D now) st).tasks.get ⟨k, hk⟩).layer = (k : ℤ) := by
  intro items
  induction items with
  | nil => intro st h1 h2; exact h2
  | cons it rest ih =>
    intro st h1 h2
    rw [List.foldl_cons, ganttStep_false_eq]
    apply ih
    · simp [h1]
    · intro k hk
      simp only [List.length_append, List.length_cons, List.length_nil] at hk
      rw [List.get_eq_getElem]
      by_cases hlt : k < st.tasks.length
      · rw [List.getElem_append_left hlt]
        have := h2 k hlt
        rwa [List.get_eq_getElem] at this
      · have hk2 : k = st.tasks.length := by omega
        subst hk2
        rw [List.getElem_append_right (le_refl _)]
        simp [h1]

/-- C4: with the compress flag disabled, each task's layer index equals its
input index, and the chart's layer count equals its task count. -/
theorem buildGantTasks_noCompress_identity (names : List String)
    (starts ends : List ℚ) (now : ℚ) (g : IGantt)
    (hg : buildGantTasks false names starts ends now = some g) :
    g.layers = g.tasks.length
      ∧ ∀ i (hi : i < g.tasks.length), (g.tasks.get ⟨i, hi⟩).layer = (i : ℤ) := by
  obtain ⟨S, E, hS, hE, rfl⟩ := buildGantTasks_inv hg
  constructor
  · simp [buildResult]
  · intro i hi
    exact foldl_noCompress_layer S (|E - S|) now (mkItems names starts ends 0)
      ⟨[], [[]], 0⟩ rfl (by intro k hk; simp at hk) i hi

/-- Witness for `buildGantTasks_noCompress_identity`: two tasks, layers `0`
and `1`, layer count `2`. -/
theorem buildGantTasks_noCompress_identity_witness :
    buildGantTasks false ["a", "b"] [0, 5] [5, 10] 0
        = some { tasks := [⟨"a", 0, 1, 0, 0⟩, ⟨"b", 1, 2, 1, 0⟩], layers := 2
                 compress := false, progress := 0, progressAngle := 0 }
      ∧ (2 : ℕ) = ([⟨"a", 0, 1, 0, 0⟩, ⟨"b", 1, 2, 1, 0⟩] : List IGanttTask).length
      ∧ (IGanttTask.mk "b" 1 2 1 0).layer = (1 : ℤ) := by
  have hg : buildGantTasks false ["a", "b"] [0, 5] [5, 10] 0
      = some { tasks := [⟨"a", 0, 1, 0, 0⟩, ⟨"b", 1, 2, 1, 0⟩], layers := 2
               compress := false, progress := 0, progressAngle := 0 } := by
    norm_num [buildGantTasks, jsReduceMin, jsReduceMax, mkItems, ganttStep, mkTask,
      calcTaskRadians, calcPercent, jsRound, findLayer, hasRoom, pushLayer]
  refine ⟨hg, ?_, ?_⟩
  · exact (buildGantTasks_noCompress_identity _ _ _ _ _ hg).1
  · exact (buildGantTasks_noCompress_identity _ _ _ _ _ hg).2 1 (by norm_num)

/-! ### The non-overlap invariant of compressed layer assignment (C1) -/

/-- Two tasks do not overlap, in the claim's sense: one's `startAngle` is at
or past the other's `endAngle`, or one's `endAngle` is at or before the
other's `startAngle`. -/
def NOverlapT (a b : IGanttTask) : Prop :=
  a.startAngle ≥ b.endAngle ∨ a.endAngle ≤ b.startAngle

lemma NOverlapT_symm {a b : IGanttTask} (h : NOverlapT a b) : NOverlapT b a := by
  rcases h with h | h
  · exact Or.inr h
  · exact Or.inl h

lemma hasRoom_mem {task : IGanttTask} {lay : List IGanttTask}
    (h : hasRoom task lay = true) {t : IGanttTask} (ht : t ∈ lay) :
    NOverlapT t task := by
  unfold hasRoom at h
  rw [List.all_eq_true] at h
  have := h t ht
  simpa [NOverlapT] using this

lemma findLayer_spec {task : IGanttTask} :
    ∀ {ls : List (List IGanttTask)} {l : ℕ}, findLayer task ls = some l →
      ∃ h : l < ls.length, hasRoom task (ls.get ⟨l, h⟩) = true := by
  intro ls
  induction ls with
  | nil => intro l h; simp [findLayer] at h
  | cons lay rest ih =>
    intro l h
    unfold findLayer at h
    by_cases hr : hasRoom task lay
    · rw [if_pos hr] at h
      simp only [Option.some.injEq] at h
      subst h
      exact ⟨by simp, hr⟩
    · rw [if_neg hr] at h
      rcases Option.map_eq_some'.mp h with ⟨l2, hl2, rfl⟩
      obtain ⟨hlt, hroom⟩ := ih hl2
      exact ⟨by simpa using Nat.succ_lt_succ hlt, by simpa using hroom⟩

lemma pushLayer_length : ∀ (ls : List (List IGanttTask)) (l : ℕ) (t : IGanttTask),
    (pushLayer ls l t).length = ls.length := by
  intro ls
  induction ls with
  | nil => intro l t; rfl
  | cons lay rest ih =>
    intro l t
    cases l with
    | zero => rfl
    | succ l => simp [pushLayer, ih]

lemma pushLayer_get : ∀ (ls : List (List IGanttTask)) (l : ℕ) (t : IGanttTask) (k : ℕ)
    (hk : k < (pushLayer ls l t).length) (hk2 : k < ls.length),
    (pushLayer ls l t).get ⟨k, hk⟩
      = if k = l then ls.get ⟨k, hk2⟩ ++ [t] else ls.get ⟨k, hk2⟩ := by
  intro ls
  induction ls with
  | nil => intro l t k hk hk2; simp at hk2
  | cons lay rest ih =>
    intro l t k hk hk2
    cases l with
    | zero =>
      cases k with
      | zero => simp [pushLayer]
      | succ k => simp [pushLayer]
    | succ l =>
      cases k with
      | zero => simp [pushLayer]
      | succ k =>
        have hk3 : k < (pushLayer rest l t).length := by
          simpa [pushLayer] using hk
        have hk4 : k < rest.length := by simpa using hk2
        have := ih l t k hk3 hk4
        by_cases hkl : k = l
        · simpa [pushLayer, hkl] using this
        · have hkl2 : ¬ (k + 1 = l + 1) := by omega
          simpa [pushLayer, hkl, hkl2] using this

/-- Invariant of the compressed fold: every emitted task sits (with its final
layer index) inside the shared `layers` array, and any two emitted tasks on
the same layer pass the claim's non-overlap test. -/
def LayerInv (st : GState) : Prop :=
  (∀ t ∈ st.tasks, ∃ l : ℕ, t.layer = (l : ℤ)
      ∧ ∃ h : l < st.layers.length, t ∈ st.layers.get ⟨l, h⟩)
  ∧ st.tasks.Pairwise (fun a b => a.layer = b.layer → NOverlapT a b)

lemma ganttStep_true_some (S D now : ℚ) (st : GState) (it : String × ℚ × ℚ) (l : ℕ)
    (hfl : findLayer (mkTask it.1 it.2.1 it.2.2 S D now) st.layers = some l) :
    ganttStep true S D now st it
      = ⟨st.tasks ++ [{ mkTask it.1 it.2.1 it.2.2 S D now with layer := (l : ℤ) }],
         pushLayer st.layers l { mkTask it.1 it.2.1 it.2.2 S D now with layer := (l : ℤ) },
         st.idx + 1⟩ := by
  simp [ganttStep, hfl]

lemma ganttStep_true_none (S D now : ℚ) (st : GState) (it : String × ℚ × ℚ)
    (hfl : findLayer (mkTask it.1 it.2.1 it.2.2 S D now) st.layers = none) :
    ganttStep true S D now st it
      = ⟨st.tasks ++ [{ mkTask it.1 it.2.1 it.2.2 S D now with layer := (st.layers.length : ℤ) }],
         st.layers ++ [[{ mkTask it.1 it.2.1 it.2.2 S D now with layer := (st.layers.length : ℤ) }]],
         st.idx + 1⟩ := by
  simp [ganttStep, hfl]

lemma layerInv_step (S D now : ℚ) (st : GState) (it : String × ℚ × ℚ)
    (h : LayerInv st) : LayerInv (ganttStep true S D now st it) := by
  obtain ⟨hmem, hpw⟩ := h
  cases hfl : findLayer (mkTask it.1 it.2.1 it.2.2 S D now) st.layers with
  | some l =>
    obtain ⟨hlt, hroom⟩ := findLayer_spec hfl
    rw [ganttStep_true_some S D now st it l hfl]
    constructor
    · intro t ht
      rcases List.mem_append.mp ht with ht | ht
      · obtain ⟨lt, heq, hl, hin⟩ := hmem t ht
        refine ⟨lt, heq, ⟨by rw [pushLayer_length]; exact hl, ?_⟩⟩
        rw [pushLayer_get _ _ _ _ _ hl]
        by_cases hteq : lt = l
        · rw [if_pos hteq]
          exact List.mem_append_left _ hin
        · rw [if_neg hteq]
          exact hin
      · rcases List.mem_singleton.mp ht with rfl
        refine ⟨l, rfl, ⟨by rw [pushLayer_length]; exact hlt, ?_⟩⟩
        rw [pushLayer_get _ _ _ _ _ hlt]
        rw [if_pos rfl]
        exact List.mem_append_right _ (List.mem_singleton.mpr rfl)
    · rw [List.pairwise_append]
      refine ⟨hpw, List.pairwise_singleton _ _, ?_⟩
      intro a ha b hb
      rcases List.mem_singleton.mp hb with rfl
      intro hab
      obtain ⟨la, heqa, hla, hina⟩ := hmem a ha
      have hcast : (la : ℤ) = (l : ℤ) := by
        rw [← heqa]
        simpa using hab
      have hlal : la = l := by exact_mod_cast hcast
      subst hlal
      have : st.layers.get ⟨la, hla⟩ = st.layers.get ⟨la, hlt⟩ := rfl
      rw [this] at hina
      exact hasRoom_mem hroom hina
  | none =>
    rw [ganttStep_true_none S D now st it hfl]
    constructor
    · intro t ht
      rcases List.mem_append.mp ht with ht | ht
      · obtain ⟨lt, heq, hl, hin⟩ := hmem t ht
        refine ⟨lt, heq, ?_⟩
        have hl2 : lt < st.layers.length + 1 := by omega
        refine ⟨by simpa using hl2, ?_⟩
        rw [List.get_eq_getElem, List.getElem_append_left hl]
        rw [List.get_eq_getElem] at hin
        exact hin
      · rcases List.mem_singleton.mp ht with rfl
        refine ⟨st.layers.length, rfl, ⟨by simp, ?_⟩⟩
        rw [List.get_eq_getElem, List.getElem_append_right (le_refl _)]
        simp
    · rw [List.pairwise_append]
      refine ⟨hpw, List.pairwise_singleton _ _, ?_⟩
      intro a ha b hb
      rcases List.mem_singleton.mp hb with rfl
      intro hab
      exfalso
      obtain ⟨la, heqa, hla, _⟩ := hmem a ha
      have : (la : ℤ) = (st.layers.length : ℤ) := by
        rw [← heqa]
        simpa using hab
      omega

lemma layerInv_fold (S D now : ℚ) :
    ∀ (items : List (String × ℚ × ℚ)) (st : GState),
      LayerInv st → LayerInv (items.foldl (ganttStep true S D now) st) := by
  intro items
  induction items with
  | nil => intro st h; exact h
  | cons it rest ih =>
    intro st h
    rw [List.foldl_cons]
    exact ih _ (layerInv_step S D now st it h)

/-- C1: with the compress flag enabled, no two distinct tasks assigned the
same layer index overlap in angle, in the claim's sense (`NOverlapT`). -/
theorem buildGantTasks_compress_no_overlap (names : List String)
    (starts ends : List ℚ) (now : ℚ) (g : IGantt)
    (hg : buildGantTasks true names starts ends now = some g)
    (i j : ℕ) (hi : i < g.tasks.length) (hj : j < g.tasks.length) (hij : i ≠ j)
    (hlay : (g.tasks.get ⟨i, hi⟩).layer = (g.tasks.get ⟨j, hj⟩).layer) :
    NOverlapT (g.tasks.get ⟨i, hi⟩) (g.tasks.get ⟨j, hj⟩) := by
  obtain ⟨S, E, hS, hE, rfl⟩ := buildGantTasks_inv hg
  have hinv := layerInv_fold S (|E - S|) now (mkItems names starts ends 0) ⟨[], [[]], 0⟩
    ⟨by simp, List.Pairwise.nil⟩
  have hpw := hinv.2
  rw [List.pairwise_iff_get] at hpw
  rcases Nat.lt_or_ge i j with hij2 | hge
  · exact hpw ⟨i, hi⟩ ⟨j, hj⟩ hij2 hlay
  · have hji : j < i := by omega
    exact NOverlapT_symm (hpw ⟨j, hj⟩ ⟨i, hi⟩ hji hlay.symm)

/-- Witness for `buildGantTasks_compress_no_overlap`: tasks 0–5 and 5–10 in a
0–10 chart share layer 0 and do not overlap. -/
theorem buildGantTasks_compress_no_overlap_witness :
    buildGantTasks true ["a", "b"] [0, 5] [5, 10] 0
        = some { tasks := [⟨"a", 0, 1, 0, 0⟩, ⟨"b", 1, 2, 0, 0⟩], layers := 1
                 compress := true, progress := 0, progressAngle := 0 }
      ∧ (0 : ℕ) ≠ 1
      ∧ NOverlapT ⟨"a", 0, 1, 0, 0⟩ ⟨"b", 1, 2, 0, 0⟩ := by
  have hg : buildGantTasks true ["a", "b"] [0, 5] [5, 10] 0
      = some { tasks := [⟨"a", 0, 1, 0, 0⟩, ⟨"b", 1, 2, 0, 0⟩], layers := 1
               compress := true, progress := 0, progressAngle := 0 } := by
    norm_num [buildGantTasks, jsReduceMin, jsReduceMax, mkItems, ganttStep, mkTask,
      calcTaskRadians, calcPercent, jsRound, findLayer, hasRoom, pushLayer]
  refine ⟨hg, by norm_num, ?_⟩
  exact buildGantTasks_compress_no_overlap _ _ _ _ _ hg 0 1 (by norm_num) (by norm_num)
    (by norm_num) rfl

/-! ### Refinement of the spec's first-fit contract (C2) -/

lemma itemAngles_eq_projSE (S D now : ℚ) (it : String × ℚ × ℚ) :
    itemAngles S D it = projSE (mkTask it.1 it.2.1 it.2.2 S D now) := rfl

lemma list_all_map {α β : Type} (f : α → β) (p : β → Bool) :
    ∀ l : List α, (l.map f).all p = l.all (fun x => p (f x)) := by
  intro l
  induction l with
  | nil => rfl
  | cons a rest ih => simp [ih]

lemma specHasRoom_map (t : IGanttTask) (lay : List IGanttTask) :
    specHasRoom (projSE t) (lay.map projSE) = hasRoom t lay := by
  unfold specHasRoom hasRoom
  rw [list_all_map]
  rfl

lemma specFindLayer_map (t : IGanttTask) :
    ∀ ls : List (List IGanttTask),
      specFindLayer (projSE t) (ls.map (fun lay => lay.map projSE)) = findLayer t ls := by
  intro ls
  induction ls with
  | nil => rfl
  | cons lay rest ih =>
    show (if specHasRoom (projSE t) (lay.map projSE) then some 0
        else (specFindLayer (projSE t) (rest.map (fun l2 => l2.map projSE))).map (· + 1))
      = (if hasRoom t lay then some 0 else (findLayer t rest).map (· + 1))
    rw [specHasRoom_map, ih]

lemma specPush_map (t : IGanttTask) :
    ∀ (ls : List (List IGanttTask)) (l : ℕ),
      specPush (ls.map (fun lay => lay.map projSE)) l (projSE t)
        = (pushLayer ls l t).map (fun lay => lay.map projSE) := by
  intro ls
  induction ls with
  | nil => intro l; rfl
  | cons lay rest ih =>
    intro l
    cases l with
    | zero => simp [specPush, pushLayer]
    | succ l => simp [specPush, pushLayer, ih]

lemma specPush_length :
    ∀ (ls : List (List (ℚ × ℚ))) (l : ℕ) (iv : ℚ × ℚ),
      (specPush ls l iv).length = ls.length := by
  intro ls
  induction ls with
  | nil => intro l iv; rfl
  | cons lay rest ih =>
    intro l iv
    cases l with
    | zero => rfl
    | succ l => simp [specPush, ih]

lemma firstFit_corr (S D now : ℚ) :
    ∀ (items : List (String × ℚ × ℚ)) (st : GState)
      (specLayers : List (List (ℚ × ℚ))),
      st.layers.map (fun lay => lay.map projSE)
          = (if specLayers = [] then [[]] else specLayers) →
      ((items.foldl (ganttStep true S D now) st).tasks).map (fun t => t.layer)
        = st.tasks.map (fun t => t.layer)
          ++ (specFirstFitGo specLayers (items.map (itemAngles S D))).map (fun n => (n : ℤ)) := by
  intro items
  induction items with
  | nil => intro st specLayers hrel; simp [specFirstFitGo]
  | cons it rest ih =>
    intro st specLayers hrel
    rw [List.foldl_cons, List.map_cons]
    by_cases hempty : specLayers = []
    · subst hempty
      rw [if_pos rfl] at hrel
      have hst : st.layers = [[]] := by
        cases hsl2 : st.layers with
        | nil => rw [hsl2] at hrel; simp at hrel
        | cons c cs =>
          rw [hsl2] at hrel
          simp only [List.map_cons, List.cons.injEq] at hrel
          obtain ⟨h1, h2⟩ := hrel
          have hc : c = [] := List.map_eq_nil.mp h1
          have hcs : cs = [] := by
            cases cs with
            | nil => rfl
            | cons d ds => simp at h2
          rw [hc, hcs]
      have hfl : findLayer (mkTask it.1 it.2.1 it.2.2 S D now) st.layers = some 0 := by
        rw [hst]; rfl
      rw [ganttStep_true_some S D now st it 0 hfl]
      have hspec : specFirstFitGo [] (itemAngles S D it :: rest.map (itemAngles S D))
          = 0 :: specFirstFitGo [[itemAngles S D it]] (rest.map (itemAngles S D)) := by
        simp [specFirstFitGo, specFindLayer]
      rw [hspec]
      have hrel2 : (pushLayer st.layers 0
            { mkTask it.1 it.2.1 it.2.2 S D now with layer := ((0 : ℕ) : ℤ) }).map
              (fun lay => lay.map projSE)
          = (if ([[itemAngles S D it]] : List (List (ℚ × ℚ))) = [] then [[]]
              else [[itemAngles S D it]]) := by
        rw [if_neg (List.cons_ne_nil _ _)]
        rw [hst]
        rfl
      rw [ih _ _ hrel2]
      simp
    · rw [if_neg hempty] at hrel
      have hfind : specFindLayer (itemAngles S D it) specLayers
          = findLayer (mkTask it.1 it.2.1 it.2.2 S D now) st.layers := by
        rw [itemAngles_eq_projSE S D now it, ← specFindLayer_map, hrel]
      cases hfl : findLayer (mkTask it.1 it.2.1 it.2.2 S D now) st.layers with
      | some l =>
        rw [ganttStep_true_some S D now st it l hfl]
        have hsf : specFindLayer (itemAngles S D it) specLayers = some l := by
          rw [hfind]; exact hfl
        have hspec : specFirstFitGo specLayers (itemAngles S D it :: rest.map (itemAngles S D))
            = l :: specFirstFitGo (specPush specLayers l (itemAngles S D it))
                (rest.map (itemAngles S D)) := by
          simp [specFirstFitGo, hsf]
        rw [hspec]
        have hne : specPush specLayers l (itemAngles S D it) ≠ [] := by
          have hlen := specPush_length specLayers l (itemAngles S D it)
          intro hcon
          rw [hcon] at hlen
          cases specLayers with
          | nil => exact hempty rfl
          | cons a as => simp at hlen
        have hrel2 : (pushLayer st.layers l
              { mkTask it.1 it.2.1 it.2.2 S D now with layer := (l : ℤ) }).map
                (fun lay => lay.map projSE)
            = (if specPush specLayers l (itemAngles S D it) = [] then [[]]
                else specPush specLayers l (itemAngles S D it)) := by
          rw [if_neg hne]
          rw [← hrel, itemAngles_eq_projSE S D now it]
          exact (specPush_map _ st.layers l).symm
        rw [ih _ _ hrel2]
        simp
      | none =>
        rw [ganttStep_true_none S D now st it hfl]
        have hsf : specFindLayer (itemAngles S D it) specLayers = none := by
          rw [hfind]; exact hfl
        have hspec : specFirstFitGo specLayers (itemAngles S D it :: rest.map (itemAngles S D))
            = specLayers.length :: specFirstFitGo (specLayers ++ [[itemAngles S D it]])
                (rest.map (itemAngles S D)) := by
          simp [specFirstFitGo, hsf]
        rw [hspec]
        have hlensl : st.layers.length = specLayers.length := by
          have := congrArg List.length hrel
          simpa using this
        have hne : specLayers ++ [[itemAngles S D it]] ≠ [] := by simp
        have hrel2 : ((st.layers ++ [[{ mkTask it.1 it.2.1 it.2.2 S D now with
              layer := (st.layers.length : ℤ) }]] : List (List IGanttTask))).map
                (fun lay => lay.map projSE)
            = (if specLayers ++ [[itemAngles S D it]] = [] then [[]]
                else specLayers ++ [[itemAngles S D it]]) := by
          rw [if_neg hne]
          rw [List.map_append, hrel]
          rfl
        rw [ih _ _ hrel2]
        simp [hlensl]

/-- C2: with the compress flag enabled, the layer indices the code assigns
are exactly those of the spec's first-fit contract (`specFirstFitLayers`,
written from the spec's words: scan existing layers in creation order, place
the task in the first layer whose members all pass the non-overlap test,
else append a new layer and use its index), applied to the tasks' angle
intervals in input order. -/
theorem buildGantTasks_firstFit (names : List String) (starts ends : List ℚ)
    (now : ℚ) (g : IGantt) (hg : buildGantTasks true names starts ends now = some g) :
    g.tasks.map (fun t => t.layer)
      = (specFirstFitLayers (g.tasks.map projSE)).map (fun n => (n : ℤ)) := by
  obtain ⟨S, E, hS, hE, rfl⟩ := buildGantTasks_inv hg
  have htasks : (buildResult true names starts ends now S E).tasks
      = ((mkItems names starts ends 0).foldl
          (ganttStep true S (|E - S|) now) ⟨[], [[]], 0⟩).tasks := rfl
  have hproj := foldl_tasks_proj true S (|E - S|) now (mkItems names starts ends 0) ⟨[], [[]], 0⟩
  rw [← htasks] at hproj
  simp only [List.map_nil, List.nil_append] at hproj
  have hcorr := firstFit_corr S (|E - S|) now (mkItems names starts ends 0) ⟨[], [[]], 0⟩ []
    (by simp)
  rw [← htasks] at hcorr
  simp only [List.map_nil, List.nil_append] at hcorr
  unfold specFirstFitLayers
  rw [hproj]
  exact hcorr

/-- Witness for `buildGantTasks_firstFit`: tasks 0–5 and 5–10 both go to
layer 0, matching the spec-side assignment. -/
theorem buildGantTasks_firstFit_witness :
    buildGantTasks true ["a", "b"] [0, 5] [5, 10] 0
        = some { tasks := [⟨"a", 0, 1, 0, 0⟩, ⟨"b", 1, 2, 0, 0⟩], layers := 1
                 compress := true, progress := 0, progressAngle := 0 }
      ∧ ([⟨"a", 0, 1, 0, 0⟩, ⟨"b", 1, 2, 0, 0⟩] : List IGanttTask).map (fun t => t.layer)
          = (specFirstFitLayers (([⟨"a", 0, 1, 0, 0⟩, ⟨"b", 1, 2, 0, 0⟩] :
              List IGanttTask).map projSE)).map (fun n => (n : ℤ)) := by
  have hg : buildGantTasks true ["a", "b"] [0, 5] [5, 10] 0
      = some { tasks := [⟨"a", 0, 1, 0, 0⟩, ⟨"b", 1, 2, 0, 0⟩], layers := 1
               compress := true, progress := 0, progressAngle := 0 } := by
    norm_num [buildGantTasks, jsReduceMin, jsReduceMax, mkItems, ganttStep, mkTask,
      calcTaskRadians, calcPercent, jsRound, findLayer, hasRoom, pushLayer]
  exact ⟨hg, buildGantTasks_firstFit _ _ _ _ _ hg⟩

/-! ### Independence of the layout from the clock (C10) -/

/-- Clock-independent part of a task: name, both angles, layer. -/
def taskShape (t : IGanttTask) : String × ℚ × ℚ × ℤ :=
  (t.name, t.startAngle, t.endAngle, t.layer)

lemma hasRoom_shape {t1 t2 : IGanttTask} (ht : taskShape t1 = taskShape t2) :
    ∀ l1 l2 : List IGanttTask, l1.map taskShape = l2.map taskShape →
      hasRoom t1 l1 = hasRoom t2 l2 := by
  have h3 : t1.startAngle = t2.startAngle := congrArg (fun p => p.2.1) ht
  have h4 : t1.endAngle = t2.endAngle := congrArg (fun p => p.2.2.1) ht
  intro l1
  induction l1 with
  | nil =>
    intro l2 hl
    cases l2 with
    | nil => rfl
    | cons b bs => simp at hl
  | cons a as ih =>
    intro l2 hl
    cases l2 with
    | nil => simp at hl
    | cons b bs =>
      simp only [List.map_cons, List.cons.injEq] at hl
      obtain ⟨hab, hrest⟩ := hl
      have h1 : a.startAngle = b.startAngle := congrArg (fun p => p.2.1) hab
      have h2 : a.endAngle = b.endAngle := congrArg (fun p => p.2.2.1) hab
      show ((decide (a.startAngle ≥ t1.endAngle) || decide (a.endAngle ≤ t1.startAngle))
          && hasRoom t1 as)
        = ((decide (b.startAngle ≥ t2.endAngle) || decide (b.endAngle ≤ t2.startAngle))
          && hasRoom t2 bs)
      rw [h1, h2, h3, h4, ih bs hrest]

lemma findLayer_shape {t1 t2 : IGanttTask} (ht : taskShape t1 = taskShape t2) :
    ∀ ls1 ls2 : List (List IGanttTask),
      ls1.map (fun lay => lay.map taskShape) = ls2.map (fun lay => lay.map taskShape) →
      findLayer t1 ls1 = findLayer t2 ls2 := by
  intro ls1
  induction ls1 with
  | nil =>
    intro ls2 hl
    cases ls2 with
    | nil => rfl
    | cons b bs => simp at hl
  | cons a as ih =>
    intro ls2 hl
    cases ls2 with
    | nil => simp at hl
    | cons b bs =>
      simp only [List.map_cons, List.cons.injEq] at hl
      obtain ⟨hab, hrest⟩ := hl
      show (if hasRoom t1 a then some 0 else (findLayer t1 as).map (· + 1))
          = (if hasRoom t2 b then some 0 else (findLayer t2 bs).map (· + 1))
      rw [hasRoom_shape ht a b hab, ih bs hrest]

lemma pushLayer_shape (t1 t2 : IGanttTask) (ht : taskShape t1 = taskShape t2) :
    ∀ (ls1 ls2 : List (List IGanttTask)) (l : ℕ),
      ls1.map (fun lay => lay.map taskShape) = ls2.map (fun lay => lay.map taskShape) →
      (pushLayer ls1 l t1).map (fun lay => lay.map taskShape)
        = (pushLayer ls2 l t2).map (fun lay => lay.map taskShape) := by
  intro ls1
  induction ls1 with
  | nil =>
    intro ls2 l hl
    cases ls2 with
    | nil => rfl
    | cons b bs => simp at hl
  | cons a as ih =>
    intro ls2 l hl
    cases ls2 with
    | nil => simp at hl
    | cons b bs =>
      simp only [List.map_cons, List.cons.injEq] at hl
      obtain ⟨hab, hrest⟩ := hl
      cases l with
      | zero => simp [pushLayer, hab, hrest, ht]
      | succ l =>
        simp only [pushLayer, List.map_cons, List.cons.injEq]
        exact ⟨hab, ih bs l hrest⟩

/-- Relation between two fold states that differ only in the clock-dependent
progress fields. -/
def GShapeRel (st1 st2 : GState) : Prop :=
  st1.tasks.map taskShape = st2.tasks.map taskShape
    ∧ st1.layers.map (fun lay => lay.map taskShape)
        = st2.layers.map (fun lay => lay.map taskShape)
    ∧ st1.idx = st2.idx

lemma ganttStep_shape (c : Bool) (S D now1 now2 : ℚ) (st1 st2 : GState)
    (it : String × ℚ × ℚ) (h : GShapeRel st1 st2) :
    GShapeRel (ganttStep c S D now1 st1 it) (ganttStep c S D now2 st2 it) := by
  obtain ⟨htl, hll, hix⟩ := h
  have ht : taskShape (mkTask it.1 it.2.1 it.2.2 S D now1)
      = taskShape (mkTask it.1 it.2.1 it.2.2 S D now2) := rfl
  cases c with
  | false =>
    rw [ganttStep_false_eq, ganttStep_false_eq]
    refine ⟨?_, hll, by simp [hix]⟩
    simp only [List.map_append, htl, hix, List.map_cons, List.map_nil]
    rfl
  | true =>
    have hfind := findLayer_shape ht st1.layers st2.layers hll
    cases hfl1 : findLayer (mkTask it.1 it.2.1 it.2.2 S D now1) st1.layers with
    | some l =>
      have hfl2 : findLayer (mkTask it.1 it.2.1 it.2.2 S D now2) st2.layers = some l := by
        rw [← hfind]; exact hfl1
      rw [ganttStep_true_some S D now1 st1 it l hfl1, ganttStep_true_some S D now2 st2 it l hfl2]
      refine ⟨?_, ?_, by simp [hix]⟩
      · simp only [List.map_append, htl, List.map_cons, List.map_nil]
        rfl
      · exact pushLayer_shape { mkTask it.1 it.2.1 it.2.2 S D now1 with layer := (l : ℤ) }
          { mkTask it.1 it.2.1 it.2.2 S D now2 with layer := (l : ℤ) } rfl
          st1.layers st2.layers l hll
    | none =>
      have hfl2 : findLayer (mkTask it.1 it.2.1 it.2.2 S D now2) st2.layers = none := by
        rw [← hfind]; exact hfl1
      have hlen : st1.layers.length = st2.layers.length := by
        have := congrArg List.length hll
        simpa using this
      rw [ganttStep_true_none S D now1 st1 it hfl1, ganttStep_true_none S D now2 st2 it hfl2]
      refine ⟨?_, ?_, by simp [hix]⟩
      · simp only [List.map_append, htl, List.map_cons, List.map_nil, hlen]
        rfl
      · simp only [List.map_append, hll, List.map_cons, List.map_nil, hlen]
        rfl

lemma foldl_shape (c : Bool) (S D now1 now2 : ℚ) :
    ∀ (items : List (String × ℚ × ℚ)) (st1 st2 : GState), GShapeRel st1 st2 →
      GShapeRel (items.foldl (ganttStep c S D now1) st1)
        (items.foldl (ganttStep c S D now2) st2) := by
  intro items
  induction items with
  | nil => intro st1 st2 h; exact h
  | cons it rest ih =>
    intro st1 st2 h
    rw [List.foldl_cons, List.foldl_cons]
    exact ih _ _ (ganttStep_shape c S D now1 now2 st1 st2 it h)

/-- C10: the layout is independent of the clock.  Two runs of
`buildGantTasks` on the same input at different values of `Date.now()`
produce the same name, start angle, end angle and layer for every task, and
the same layer count; only the progress fields can differ. -/
theorem buildGantTasks_now_independent (c : Bool) (names : List String)
    (starts ends : List ℚ) (now1 now2 : ℚ) (g1 g2 : IGantt)
    (h1 : buildGantTasks c names starts ends now1 = some g1)
    (h2 : buildGantTasks c names starts ends now2 = some g2) :
    g1.tasks.map taskShape = g2.tasks.map taskShape ∧ g1.layers = g2.layers := by
  obtain ⟨S, E, hS, hE, rfl⟩ := buildGantTasks_inv h1
  obtain ⟨S2, E2, hS2, hE2, rfl⟩ := buildGantTasks_inv h2
  rw [hS] at hS2
  rw [hE] at hE2
  have hSeq : S = S2 := by injection hS2
  have hEeq : E = E2 := by injection hE2
  subst hSeq
  subst hEeq
  have hrel := foldl_shape c S (|E - S|) now1 now2 (mkItems names starts ends 0)
    ⟨[], [[]], 0⟩ ⟨[], [[]], 0⟩ ⟨rfl, rfl, rfl⟩
  obtain ⟨htl, hll, _⟩ := hrel
  constructor
  · exact htl
  · show (buildResult c names starts ends now1 S E).layers
        = (buildResult c names starts ends now2 S E).layers
    unfold buildResult
    cases c with
    | false =>
      simp only [Bool.false_eq_true, if_false]
      have := congrArg List.length htl
      simpa using this
    | true =>
      simp only [if_true]
      have := congrArg List.length hll
      simpa using this

/-- Witness for `buildGantTasks_now_independent`: running at `now = 0` and
`now = 20` changes only the progress fields of a 0–10 task. -/
theorem buildGantTasks_now_independent_witness :
    buildGantTasks false ["a"] [0] [10] 0
        = some { tasks := [⟨"a", 0, 2, 0, 0⟩], layers := 1, compress := false
                 progress := 0, progressAngle := 0 }
      ∧ buildGantTasks false ["a"] [0] [10] 20
          = some { tasks := [⟨"a", 0, 2, 0, 100⟩], layers := 1, compress := false
                   progress := 100, progressAngle := 2 }
      ∧ ([⟨"a", 0, 2, 0, 0⟩] : List IGanttTask).map taskShape
          = ([⟨"a", 0, 2, 0, 100⟩] : List IGanttTask).map taskShape
      ∧ (1 : ℕ) = 1 := by
  have h1 : buildGantTasks false ["a"] [0] [10] 0
      = some { tasks := [⟨"a", 0, 2, 0, 0⟩], layers := 1, compress := false
               progress := 0, progressAngle := 0 } := by
    norm_num [buildGantTasks, jsReduceMin, jsReduceMax, mkItems, ganttStep, mkTask,
      calcTaskRadians, calcPercent, jsRound]
  have h2 : buildGantTasks false ["a"] [0] [10] 20
      = some { tasks := [⟨"a", 0, 2, 0, 100⟩], layers := 1, compress := false
               progress := 100, progressAngle := 2 } := by
    norm_num [buildGantTasks, jsReduceMin, jsReduceMax, mkItems, ganttStep, mkTask,
      calcTaskRadians, calcPercent, jsRound]
  have hconc := buildGantTasks_now_independent false ["a"] [0] [10] 0 20 _ _ h1 h2
  exact ⟨h1, h2, hconc.1, hconc.2⟩

/-! ### Converter totality and guard paths (C7) -/

/-- Empty chart the converter builds before inspecting the categorical data. -/
def emptyGantt (dv : DataView) : IGantt :=
  { tasks := [], layers := 0, compress := compressLayout dv
    progress := 0, progressAngle := 0 }

/-- C7 (counterexample): with one (empty) category column and two (empty)
value series, the converter reaches `buildGantTasks`, whose
`starts.reduce(...)` over the empty array throws a `TypeError` (modelled as
`none`), so the converter does not complete normally. -/
theorem converter_empty_reduce_counterexample :
    converter ⟨some ⟨[⟨[]⟩], [⟨[]⟩, ⟨[]⟩]⟩, some false⟩ 0 = none := rfl

/-- C7 (amended): the converter returns the empty chart when the categorical
payload is missing, has no categories, or fewer than two value series, and it
completes without throwing whenever the start and end series are both
non-empty; but with two value series one of which is empty, the
initial-value-less `reduce` throws (see
`converter_empty_reduce_counterexample`). -/
theorem converter_total_amended (dv : DataView) (now : ℚ) :
    (dv.categorical = none → converter dv now = some (emptyGantt dv))
      ∧ (∀ cat, dv.categorical = some cat →
          (cat.categories = [] ∨ cat.values.length < 2) →
          converter dv now = some (emptyGantt dv))
      ∧ (∀ cat, dv.categorical = some cat →
          (cat.values.getD 0 ⟨[]⟩).values ≠ [] →
          (cat.values.getD 1 ⟨[]⟩).values ≠ [] →
          (converter dv now).isSome = true) := by
  refine ⟨?_, ?_, ?_⟩
  · intro hnone
    unfold converter
    rw [hnone]
    rfl
  · intro cat hcat hbad
    unfold converter
    rw [hcat]
    dsimp only
    cases hcats : cat.categories with
    | nil => rfl
    | cons category rest =>
      rcases hbad with hbad | hbad
      · rw [hcats] at hbad
        exact absurd hbad (List.cons_ne_nil _ _)
      · dsimp only
        rw [if_neg (not_le.mpr hbad)]
        rfl
  · intro cat hcat hs he
    unfold converter
    rw [hcat]
    dsimp only
    cases hcats : cat.categories with
    | nil => rfl
    | cons category rest =>
      dsimp only
      by_cases h2 : 2 ≤ cat.values.length
      · rw [if_pos h2]
        obtain ⟨m, hm⟩ := jsReduceMin_isSome hs
        obtain ⟨M, hM⟩ := jsReduceMax_isSome he
        unfold buildGantTasks
        rw [hm, hM]
        rfl
      · rw [if_neg h2]
        rfl

/-- Witness for `converter_total_amended`: a missing categorical payload
yields the empty chart, and a well-formed single-task DataView completes. -/
theorem converter_total_amended_witness :
    converter ⟨none, none⟩ 0 = some (emptyGantt ⟨none, none⟩)
      ∧ (converter ⟨some ⟨[⟨["a"]⟩], [⟨[1]⟩, ⟨[2]⟩]⟩, none⟩ 0).isSome = true :=
  ⟨(converter_total_amended ⟨none, none⟩ 0).1 rfl,
   (converter_total_amended ⟨some ⟨[⟨["a"]⟩], [⟨[1]⟩, ⟨[2]⟩]⟩, none⟩ 0).2.2 _ rfl
     (by simp) (by simp)⟩

/-! ### Empty task lists (C9) -/

/-- C9 (counterexample): when compression is enabled and the converter
reaches task building with an empty name list but non-empty series, the chart
has zero tasks yet one layer (the `layers` array starts as `[[]]` and its
length is reported), not zero. -/
theorem emptyTasks_one_layer_counterexample :
    converter ⟨some ⟨[⟨[]⟩], [⟨[7]⟩, ⟨[7]⟩]⟩, some true⟩ 0
        = some { tasks := [], layers := 1, compress := true
                 progress := 100, progressAngle := 2 }
      ∧ (1 : ℕ) ≠ 0 := by
  constructor
  · norm_num [converter, compressLayout, buildGantTasks, jsReduceMin, jsReduceMax, mkItems,
      calcTaskRadians, calcPercent, jsRound]
  · decide

lemma buildResult_layers_false (names : List String) (starts ends : List ℚ)
    (now S E : ℚ) :
    (buildResult false names starts ends now S E).layers
      = (buildResult false names starts ends now S E).tasks.length := by
  unfold buildResult
  simp

lemma buildResult_layers_true (names : List String) (starts ends : List ℚ)
    (now S E : ℚ) (h : mkItems names starts ends 0 = []) :
    (buildResult true names starts ends now S E).layers = 1 := by
  unfold buildResult
  rw [h]
  rfl

/-- C9 (amended): a chart with an empty task list shows the
`'Project Has No Tasks'` label; its layer count is zero, except that with
compression enabled a chart built from an empty name list but non-empty
series reports one layer (see `emptyTasks_one_layer_counterexample`). -/
theorem emptyTasks_label_layers (dv : DataView) (now : ℚ) (g : IGantt)
    (hg : converter dv now = some g) (hempty : g.tasks = []) :
    getTotalProgressLabel g.tasks.length g.progress = "Project Has No Tasks"
      ∧ (g.layers = 0 ∨ (g.compress = true ∧ g.layers = 1)) := by
  refine ⟨by rw [hempty]; rfl, ?_⟩
  unfold converter at hg
  cases hdc : dv.categorical with
  | none =>
    rw [hdc] at hg
    dsimp only at hg
    simp only [Option.some.injEq] at hg
    rw [← hg]
    exact Or.inl rfl
  | some cat =>
    rw [hdc] at hg
    dsimp only at hg
    cases hcats : cat.categories with
    | nil =>
      rw [hcats] at hg
      dsimp only at hg
      simp only [Option.some.injEq] at hg
      rw [← hg]
      exact Or.inl rfl
    | cons category rest =>
      rw [hcats] at hg
      dsimp only at hg
      by_cases h2 : 2 ≤ cat.values.length
      · rw [if_pos h2] at hg
        obtain ⟨S, E, hS, hE, rfl⟩ := buildGantTasks_inv hg
        have htasks : (buildResult (compressLayout dv) category.values
              (cat.values.getD 0 ⟨[]⟩).values (cat.values.getD 1 ⟨[]⟩).values now S E).tasks
            = ((mkItems category.values (cat.values.getD 0 ⟨[]⟩).values
                (cat.values.getD 1 ⟨[]⟩).values 0).foldl
              (ganttStep (compressLayout dv) S (|E - S|) now) ⟨[], [[]], 0⟩).tasks := rfl
        have hproj := foldl_tasks_proj (compressLayout dv) S (|E - S|) now
          (mkItems category.values (cat.values.getD 0 ⟨[]⟩).values
            (cat.values.getD 1 ⟨[]⟩).values 0) ⟨[], [[]], 0⟩
        rw [← htasks] at hproj
        simp only [List.map_nil, List.nil_append] at hproj
        have hitems : mkItems category.values (cat.values.getD 0 ⟨[]⟩).values
            (cat.values.getD 1 ⟨[]⟩).values 0 = [] := by
          have h0 : (mkItems category.values (cat.values.getD 0 ⟨[]⟩).values
              (cat.values.getD 1 ⟨[]⟩).values 0).length = 0 := by
            have := congrArg List.length hproj
            rw [hempty] at this
            simpa using this.symm
          exact List.length_eq_zero.mp h0
        cases hc2 : compressLayout dv with
        | false =>
          refine Or.inl ?_
          rw [hc2] at hempty
          rw [buildResult_layers_false, hempty]
          rfl
        | true =>
          exact Or.inr ⟨rfl, buildResult_layers_true _ _ _ _ _ _ hitems⟩
      · rw [if_neg h2] at hg
        simp only [Option.some.injEq] at hg
        rw [← hg]
        exact Or.inl rfl

/-- Witness for `emptyTasks_label_layers`: the guard-path empty chart has the
no-tasks label and zero layers. -/
theorem emptyTasks_label_layers_witness :
    converter ⟨none, none⟩ 0 = some ⟨[], 0, false, 0, 0⟩
      ∧ (getTotalProgressLabel ([] : List IGanttTask).length 0 = "Project Has No Tasks"
          ∧ ((0 : ℕ) = 0 ∨ (false = true ∧ (0 : ℕ) = 1))) := by
  have hg : converter ⟨none, none⟩ 0 = some ⟨[], 0, false, 0, 0⟩ := rfl
  exact ⟨hg, emptyTasks_label_layers _ 0 _ hg rfl⟩

